import Mathlib

/-
Verification of the build-configuration and dependency-staging recipe of
lucoiso/VulkanRender (conanfile.py) against its natural-language design spec.

The recipe's only real logic is the generate() method:

    for dep in self.dependencies.values():
        if dep.cpp_info.bindirs:
            copy(pattern="*.dll",   dst=<build>/<build_type>/bin, src=dep.cpp_info.bindirs[0], ...)
            copy(pattern="*.dylib", dst=<build>/<build_type>/bin, src=dep.cpp_info.bindirs[0], ...)
            copy(pattern="*.so",    dst=<build>/<build_type>/bin, src=dep.cpp_info.bindirs[0], ...)

We embed the filesystem-visible behaviour of this loop:

* a source binary directory is a list of (name, content) files;
* conan's copy(pattern="*.X", ...) collects every file of the source
  directory whose name fnmatch-es "*.X" -- for a pattern of the shape
  "*" ++ suffix this is exactly "name ends with suffix" -- and writes each
  of them into the destination directory, overwriting an existing file of
  the same name (shutil semantics: overwrite in place, no error);
* the destination directory is an association list from file name to
  content; writing replaces the entry of an existing name in place and
  appends a fresh name at the end.

conan semantics embedded alongside the recipe's own declarations:

* self.dependencies.values() iterates ALL dependencies of the graph,
  the regular requires of requirements() AND the tool requires of
  build_requirements() (conan 2 iterates the full graph unless one of the
  filtered views .host / .build is used; the recipe uses no filter), in
  deterministic graph order: direct requires in declaration order, the
  build-context requires after them;
* default_options = {"*:shared": True} applies shared=True to every
  dependency matching the wildcard pattern; per-requirement options
  (self.requires("boost/[>=1.84]", options={"without_cobalt": True}))
  apply to that exact dependency; entries of different patterns merge,
  an exact-name entry overrides a wildcard entry of the same key.
-/

namespace VulkanRender

/-- A file of a dependency's binary output directory: its name and its bytes. -/
structure SrcFile where
  name : String
  content : String
deriving DecidableEq, Repr

/-- A binary output directory: the files it holds, in listing order. -/
abbrev Dir := List SrcFile

/-- A resolved dependency as the staging loop sees it: its name, whether it
came from build_requirements (a tool require, e.g. cmake) or from
requirements(), and its cpp_info.bindirs, an ordered list of directories. -/
structure Dep where
  name : String
  is_build_tool : Bool
  bindirs : List Dir
deriving Repr

/-- The destination directory build/<build_type>/bin as an association list
from file name to file content. -/
abbrev DestDir := List (String × String)

/-- The file names present in a destination directory. -/
def keys (d : DestDir) : List String :=
  d.map Prod.fst

/-- Reading a file of the destination directory by name. -/
def lookupDest : DestDir → String → Option String
  | [], _ => none
  | p :: d, n => if p.1 = n then some p.2 else lookupDest d n

/-- Writing one file into the destination directory, the way shutil's copy
behaves there: an existing file of the same name is overwritten in place,
a new name is appended; never an error. -/
def writeFile : DestDir → String → String → DestDir
  | [], n, c => [(n, c)]
  | p :: d, n, c => if p.1 = n then (n, c) :: d else p :: writeFile d n c

/-- The three patterns the recipe passes to copy, in the order of the three
copy calls: "*.dll", "*.dylib", "*.so", each represented by its literal
suffix (fnmatch of "*" ++ s is exactly the ends-with-s test). -/
def sharedLibSuffixes : List String :=
  [".dll", ".dylib", ".so"]

/-- Whether string s is a suffix of string n, character-wise: the ends-with
test fnmatch applies for a pattern "*" ++ s. -/
def isSuffix (s n : String) : Bool :=
  s.data.isSuffixOf n.data

/-- Whether a file name matches one of the three copy patterns. -/
def matchesShared (n : String) : Bool :=
  sharedLibSuffixes.any (fun s => isSuffix s n)

/-- The writes produced by one copy(pattern="*" ++ suffix, src=d, ...) call:
every file of d whose name ends with the suffix, in directory order. -/
def copyMatches (suffix : String) (d : Dir) : List (String × String) :=
  (d.filter (fun f => isSuffix suffix f.name)).map (fun f => (f.name, f.content))

/-- The writes the loop body performs for one dependency: nothing when
cpp_info.bindirs is empty (the `if dep.cpp_info.bindirs:` guard), else the
three copy calls on bindirs[0] in source order; directories after the first
are never read. -/
def depWrites (dep : Dep) : List (String × String) :=
  match dep.bindirs with
  | [] => []
  | d :: _ => copyMatches ".dll" d ++ copyMatches ".dylib" d ++ copyMatches ".so" d

/-- The flat sequence of writes of the whole staging loop, dependency by
dependency in iteration order. -/
def stageWrites (deps : List Dep) : List (String × String) :=
  (deps.map depWrites).flatten

/-- Applying a sequence of writes to the destination directory. -/
def applyWrites (ws : List (String × String)) (d : DestDir) : DestDir :=
  ws.foldl (fun a p => writeFile a p.1 p.2) d

/-- The staging loop of generate(): run every dependency's writes, in order,
against the destination directory. -/
def stageAll (deps : List Dep) (d : DestDir) : DestDir :=
  applyWrites (stageWrites deps) d

/-- The recipe's global option table: default_options = \x7b"*:shared": True\x7d. -/
def default_options : List (String × String × Bool) :=
  [("*", "shared", true)]

/-- The per-requirement option overrides of requirements(): only the boost
require carries options=\x7b"without_cobalt": True\x7d. -/
def requirementOptions (n : String) : List (String × Bool) :=
  if n = "boost" then [("without_cobalt", true)] else []

/-- Whether a default_options pattern applies to a dependency name: the
recipe only uses the global wildcard "*"; an exact name would also match. -/
def patternApplies (pat n : String) : Bool :=
  pat = "*" || pat = n

/-- Reading an option value from a key/value list. -/
def lookupOpt : List (String × Bool) → String → Option Bool
  | [], _ => none
  | p :: l, k => if p.1 = k then some p.2 else lookupOpt l k

/-- conan's effective option set of a dependency: the per-requirement
exact-name entries, merged with every matching wildcard entry of
default_options whose key is not overridden by an exact entry. -/
def effectiveOptions (n : String) : List (String × Bool) :=
  let wild := (default_options.filter (fun e => patternApplies e.1 n)).map (fun e => e.2)
  requirementOptions n ++ wild.filter (fun w => !((requirementOptions n).any (fun e => e.1 = w.1)))

/-- The self.requires calls of requirements(), in declaration order. -/
def requirementOrder : List String :=
  ["glfw", "imgui", "boost", "benchmark", "catch2", "tinygltf"]

/-- The dependency set self.dependencies.values() iterates, as a function of
the binary directories each package exposes at run time: the six regular
requires in declaration order, then the cmake tool require of
build_requirements(). -/
def recipeDeps (dirs : String → List Dir) : List Dep :=
  requirementOrder.map (fun n => ⟨n, false, dirs n⟩) ++ [⟨"cmake", true, dirs "cmake"⟩]

/-- The last value a write sequence assigns to name n, starting from a
previous value o: the fold the destination file of name n goes through. -/
def writesLast (ws : List (String × String)) (n : String) (o : Option String) : Option String :=
  ws.foldl (fun acc p => if p.1 = n then some p.2 else acc) o

theorem lookupDest_writeFile (d : DestDir) (m c n : String) :
    lookupDest (writeFile d m c) n = if n = m then some c else lookupDest d n := by
  induction d with
  | nil =>
    rcases eq_or_ne n m with h | h
    · subst h; simp [writeFile, lookupDest]
    · simp [writeFile, lookupDest, h, Ne.symm h]
  | cons p d ih =>
    rcases eq_or_ne p.1 m with hpm | hpm
    · rcases eq_or_ne n m with hnm | hnm
      · subst hnm; simp [writeFile, hpm, lookupDest]
      · simp [writeFile, hpm, lookupDest, hnm, Ne.symm hnm]
    · rcases eq_or_ne p.1 n with hpn | hpn
      · have hnm : n ≠ m := fun h => hpm (hpn.trans h)
        simp [writeFile, hpm, lookupDest, hpn, hnm]
      · simp [writeFile, hpm, lookupDest, hpn, ih]

theorem lookupDest_applyWrites (ws : List (String × String)) (d : DestDir) (n : String) :
    lookupDest (applyWrites ws d) n = writesLast ws n (lookupDest d n) := by
  induction ws generalizing d with
  | nil => rfl
  | cons p ws ih =>
    show lookupDest (applyWrites ws (writeFile d p.1 p.2)) n =
      writesLast ws n (if p.1 = n then some p.2 else lookupDest d n)
    rw [ih, lookupDest_writeFile]
    rcases eq_or_ne n p.1 with h | h
    · simp [h]
    · simp [h, Ne.symm h]

theorem writesLast_cons (p : String × String) (ws : List (String × String)) (n : String)
    (o : Option String) :
    writesLast (p :: ws) n o = writesLast ws n (if p.1 = n then some p.2 else o) := rfl

theorem writesLast_absorb (ws : List (String × String)) (n : String) :
    ∀ o, writesLast ws n (writesLast ws n o) = writesLast ws n o := by
  induction ws with
  | nil => intro o; rfl
  | cons p ws ih =>
    intro o
    simp only [writesLast_cons]
    split_ifs with h
    · rfl
    · exact ih o

theorem keys_writeFile (d : DestDir) (m c : String) :
    keys (writeFile d m c) = if m ∈ keys d then keys d else keys d ++ [m] := by
  induction d with
  | nil => simp [writeFile, keys]
  | cons p d ih =>
    rcases eq_or_ne p.1 m with h | h
    · simp [writeFile, h, keys, List.mem_cons]
    · simp only [writeFile, if_neg h, keys, List.map_cons] at *
      rw [ih]
      by_cases hm : m ∈ List.map Prod.fst d
      · simp [hm, Ne.symm h]
      · simp [hm, Ne.symm h]

theorem mem_keys_writeFile (d : DestDir) (m c n : String) :
    n ∈ keys (writeFile d m c) ↔ n = m ∨ n ∈ keys d := by
  rw [keys_writeFile]
  by_cases h : m ∈ keys d
  · rw [if_pos h]
    constructor
    · exact Or.inr
    · rintro (rfl | hn)
      · exact h
      · exact hn
  · rw [if_neg h]
    simp [List.mem_append, or_comm]

theorem mem_keys_applyWrites_mono (ws : List (String × String)) (d : DestDir) (n : String)
    (h : n ∈ keys d) : n ∈ keys (applyWrites ws d) := by
  induction ws generalizing d with
  | nil => exact h
  | cons p ws ih =>
    exact ih (writeFile d p.1 p.2) ((mem_keys_writeFile d p.1 p.2 n).mpr (Or.inr h))

theorem mem_keys_applyWrites (ws : List (String × String)) (d : DestDir) (p : String × String)
    (hp : p ∈ ws) : p.1 ∈ keys (applyWrites ws d) := by
  induction ws generalizing d with
  | nil => cases hp
  | cons q ws ih =>
    rcases List.mem_cons.mp hp with h | h
    · subst h
      exact mem_keys_applyWrites_mono ws (writeFile d p.1 p.2)
        p.1 ((mem_keys_writeFile d p.1 p.2 p.1).mpr (Or.inl rfl))
    · exact ih (writeFile d q.1 q.2) h

theorem keys_applyWrites_stable (ws : List (String × String)) (d : DestDir)
    (h : ∀ p ∈ ws, p.1 ∈ keys d) : keys (applyWrites ws d) = keys d := by
  induction ws generalizing d with
  | nil => rfl
  | cons p ws ih =>
    have h1 : p.1 ∈ keys d := h p (List.mem_cons_self p ws)
    have hk : keys (writeFile d p.1 p.2) = keys d := by rw [keys_writeFile, if_pos h1]
    show keys (applyWrites ws (writeFile d p.1 p.2)) = keys d
    rw [ih (writeFile d p.1 p.2) (fun q hq => hk ▸ h q (List.mem_cons_of_mem _ hq)), hk]

theorem nodup_keys_writeFile (d : DestDir) (m c : String) (h : (keys d).Nodup) :
    (keys (writeFile d m c)).Nodup := by
  rw [keys_writeFile]
  split_ifs with hm
  · exact h
  · simp [List.nodup_append, h, hm]

theorem nodup_keys_applyWrites (ws : List (String × String)) (d : DestDir)
    (h : (keys d).Nodup) : (keys (applyWrites ws d)).Nodup := by
  induction ws generalizing d with
  | nil => exact h
  | cons p ws ih => exact ih (writeFile d p.1 p.2) (nodup_keys_writeFile d p.1 p.2 h)

/-- A dependency whose first binary directory holds one versioned shared
object, libfoo.so.1, and nothing else. -/
def soVersionedDep : Dep :=
  ⟨"libfoo", false, [[⟨"libfoo.so.1", "ELF"⟩]]⟩

/-- C1 counterexample: the claim says a file with a versioned .so.N suffix is
copied, but the pattern "*.so" fnmatch test does not accept libfoo.so.1, and a
dependency exposing exactly that file gets nothing staged at all. -/
theorem versioned_so_not_staged :
    matchesShared "libfoo.so.1" = false ∧ stageAll [soVersionedDep] [] = [] := by decide

/-- C1 (amended): staging copies, from the first binary directory of a
dependency, exactly the files whose names end literally in .dll, .dylib or
.so; a versioned name of the form *.so.N matches none of the three patterns
and is left behind. -/
theorem staged_names_exact_suffix_only (dep : Dep) (d : Dir) (rest : List Dir)
    (h : dep.bindirs = d :: rest) (n : String) :
    n ∈ (depWrites dep).map Prod.fst ↔
      (∃ f ∈ d, f.name = n) ∧ matchesShared n = true := by
  simp only [depWrites, h, copyMatches, matchesShared, sharedLibSuffixes]
  simp [List.mem_map, List.mem_filter, List.mem_append]
  aesop

/-- A dependency whose first binary directory holds one unversioned shared
object, libglfw.so. -/
def glfwLikeDep : Dep :=
  ⟨"glfw", false, [[⟨"libglfw.so", "ELF"⟩]]⟩

/-- C1 witness: a file whose name ends exactly in .so is staged. -/
theorem staged_names_exact_suffix_only_witness :
    "libglfw.so" ∈ (depWrites glfwLikeDep).map Prod.fst :=
  (staged_names_exact_suffix_only glfwLikeDep [⟨"libglfw.so", "ELF"⟩] [] rfl "libglfw.so").mpr
    ⟨⟨⟨"libglfw.so", "ELF"⟩, by decide, rfl⟩, by decide⟩

/-- C2 counterexample: two distinct dependencies each expose a file literally
named core.so; the recipe raises nothing and has no StagingCollision — the
second dependency's bytes silently replace the first's in the destination. -/
theorem collision_silently_overwrites :
    stageAll [⟨"alpha", false, [[⟨"core.so", "A"⟩]]⟩,
              ⟨"beta", false, [[⟨"core.so", "B"⟩]]⟩] [] = [("core.so", "B")] := by decide

/-- C2 (amended): when two dependencies stage the same destination filename,
the file of the dependency iterated later wins: the destination ends up
holding its content, with no error and no collision report. -/
theorem collision_last_dep_wins (n1 n2 c1 c2 : String) :
    lookupDest (stageAll [⟨n1, false, [[⟨"core.so", c1⟩]]⟩,
      ⟨n2, false, [[⟨"core.so", c2⟩]]⟩] []) "core.so" = some c2 := rfl

/-- A dependency with two binary directories; only the second one holds a
matching shared object. -/
def twoDirDep : Dep :=
  ⟨"gamma", false, [[], [⟨"a.so", "ELF"⟩]]⟩

/-- C3 counterexample: the claim says every directory of artifact_dirs is
staged, but the recipe reads only bindirs[0]; a matching file sitting in the
second directory is never copied. -/
theorem second_bindir_not_staged :
    stageAll [twoDirDep] [] = [] := by decide

/-- C3 (amended): every staged file of a dependency originates from the first
directory of its bindirs sequence, and the staging output of a dependency is
unchanged when all directories after the first are dropped. -/
theorem stage_reads_only_first_bindir (dep : Dep) (d : Dir) (rest : List Dir)
    (h : dep.bindirs = d :: rest) :
    (∀ p ∈ depWrites dep, ∃ f ∈ d, p = (f.name, f.content)) ∧
      depWrites dep = depWrites ⟨dep.name, dep.is_build_tool, [d]⟩ := by
  constructor
  · intro p hp
    simp only [depWrites, h, copyMatches, List.mem_append, List.mem_map, List.mem_filter] at hp
    rcases hp with (⟨f, ⟨hf, _⟩, rfl⟩ | ⟨f, ⟨hf, _⟩, rfl⟩) | ⟨f, ⟨hf, _⟩, rfl⟩ <;>
      exact ⟨f, hf, rfl⟩
  · simp [depWrites, h]

/-- C3 witness: the staged file of twoDirDep truncated to its first directory
coincides with its full staging, and each staged pair comes from that
directory. -/
theorem stage_reads_only_first_bindir_witness :
    depWrites twoDirDep = depWrites ⟨"gamma", false, [[]]⟩ :=
  ((stage_reads_only_first_bindir twoDirDep [] [[⟨"a.so", "ELF"⟩]] rfl).2 : _)

/-- The run-time binary directories of a hypothetical environment where the
cmake tool require exposes a shared library and every regular require exposes
nothing. -/
def toolDirs : String → List Dir := fun n =>
  if n = "cmake" then [[⟨"tool.dll", "MZ"⟩]] else []

/-- C4 counterexample: the staging loop iterates self.dependencies.values(),
which contains the cmake tool require of build_requirements(); in a run where
cmake's first binary directory holds tool.dll, that file is staged, so tool
requirements are not excluded from the pass. -/
theorem tool_require_file_staged :
    (∃ dep ∈ recipeDeps toolDirs, dep.is_build_tool = true ∧
      depWrites dep = [("tool.dll", "MZ")]) ∧
      stageAll (recipeDeps toolDirs) [] = [("tool.dll", "MZ")] := by decide

/-- C4 (amended): the staging pass does not distinguish tool requirements
from runtime requirements at all — the writes of a dependency are identical
whether or not it is marked as a build tool. -/
theorem stage_ignores_build_tool_flag (n : String) (b1 b2 : Bool) (ds : List Dir) :
    depWrites ⟨n, b1, ds⟩ = depWrites ⟨n, b2, ds⟩ := rfl

/-- C5: the effective option set of a dependency merges the global wildcard
entries of default_options with its per-requirement exact-name entries: boost
carries both shared (from "*:shared": True) and without_cobalt (from its
requires options), glfw carries only the wildcard entry, and an exact-name
entry always determines its key's value. -/
theorem boost_effective_options :
    lookupOpt (effectiveOptions "boost") "shared" = some true ∧
    lookupOpt (effectiveOptions "boost") "without_cobalt" = some true ∧
    lookupOpt (effectiveOptions "glfw") "shared" = some true ∧
    lookupOpt (effectiveOptions "glfw") "without_cobalt" = none ∧
    ∀ n k v, (k, v) ∈ requirementOptions n → lookupOpt (effectiveOptions n) k = some v := by
  refine ⟨by decide, by decide, by decide, by decide, ?_⟩
  intro n k v hkv
  by_cases hn : n = "boost"
  · subst hn
    simp [requirementOptions] at hkv
    obtain ⟨hk, hv⟩ := hkv
    subst hk
    subst hv
    decide
  · simp [requirementOptions, hn] at hkv

/-- C5 witness: the exact-name clause applied to boost's without_cobalt. -/
theorem boost_effective_options_witness :
    lookupOpt (effectiveOptions "boost") "without_cobalt" = some true :=
  boost_effective_options.2.2.2.2 "boost" "without_cobalt" true (by decide)

/-- C6 counterexample: the dependency iteration order of the recipe is its
declaration order glfw, imgui, boost, ..., which is not ascending by name —
imgui is emitted before boost. -/
theorem emission_order_not_sorted :
    ¬ List.Sorted (fun a b : String => a ≤ b) ((recipeDeps fun _ => []).map Dep.name) := by
  intro h
  have h2 : ("imgui" : String) ≤ "boost" := by
    have := List.Sorted.rel_get_of_lt h
      (a := ⟨1, by simp [recipeDeps, requirementOrder]⟩)
      (b := ⟨2, by simp [recipeDeps, requirementOrder]⟩) (by decide)
    simpa [recipeDeps, requirementOrder] using this
  rw [String.le_iff_toList_le] at h2
  revert h2
  decide

/-- C6 (amended): the emission order is deterministic — a pure function of
the declarations, identical for every run-time directory assignment — but it
is the declaration order of requirements() followed by the tool require, not
an order sorted by name. -/
theorem emission_order_is_declaration_order (dirs : String → List Dir) :
    (recipeDeps dirs).map Dep.name =
      ["glfw", "imgui", "boost", "benchmark", "catch2", "tinygltf", "cmake"] := rfl

/-- C7: staging is idempotent — running the staging loop a second time over
the same dependency set leaves every destination file with the same bytes,
leaves the set of destination file names unchanged, and preserves freedom
from duplicate directory entries; overwriting is silent, so no error arises. -/
theorem stage_idempotent (deps : List Dep) (d0 : DestDir) :
    (∀ n, lookupDest (stageAll deps (stageAll deps d0)) n =
      lookupDest (stageAll deps d0) n) ∧
    keys (stageAll deps (stageAll deps d0)) = keys (stageAll deps d0) ∧
    ((keys d0).Nodup → (keys (stageAll deps d0)).Nodup) := by
  refine ⟨?_, ?_, ?_⟩
  · intro n
    simp only [stageAll]
    rw [lookupDest_applyWrites, lookupDest_applyWrites, writesLast_absorb]
  · simp only [stageAll]
    exact keys_applyWrites_stable _ _ (fun p hp => mem_keys_applyWrites _ _ p hp)
  · intro hnd
    simp only [stageAll]
    exact nodup_keys_applyWrites _ _ hnd

/-- C7 witness: idempotence evaluated on a one-dependency set over an empty
destination directory. -/
theorem stage_idempotent_witness :
    lookupDest (stageAll [glfwLikeDep] (stageAll [glfwLikeDep] []))
        "libglfw.so" = lookupDest (stageAll [glfwLikeDep] []) "libglfw.so" ∧
      (keys (stageAll [glfwLikeDep] [])).Nodup :=
  ⟨(stage_idempotent [glfwLikeDep] []).1 "libglfw.so",
    (stage_idempotent [glfwLikeDep] []).2.2 (by decide)⟩

/-- C8: a dependency none of whose binary files matches the shared-library
suffix set — a header-only or static-only package — contributes zero writes,
and staging it leaves the destination directory untouched, with no error. -/
theorem static_only_dep_stages_nothing (dep : Dep) (d0 : DestDir)
    (h : ∀ dir ∈ dep.bindirs, ∀ f ∈ dir, matchesShared f.name = false) :
    depWrites dep = [] ∧ stageAll [dep] d0 = d0 := by
  have hw : depWrites dep = [] := by
    rcases hb : dep.bindirs with _ | ⟨d, rest⟩
    · simp [depWrites, hb]
    · have hfil : ∀ s ∈ sharedLibSuffixes, d.filter (fun f => isSuffix s f.name) = [] := by
        intro s hs
        rw [List.filter_eq_nil_iff]
        intro f hf
        have hms := h d (by rw [hb]; exact List.mem_cons_self d rest) f hf
        simp only [matchesShared, List.any_eq_false] at hms
        exact hms s hs
      simp [depWrites, hb, copyMatches, hfil ".dll" (by decide), hfil ".dylib" (by decide),
        hfil ".so" (by decide)]
  exact ⟨hw, by simp [stageAll, stageWrites, hw, applyWrites]⟩

/-- A static-only dependency: its binary directory holds only an archive. -/
def staticOnlyDep : Dep :=
  ⟨"delta", false, [[⟨"libdelta.a", "AR"⟩]]⟩

/-- C8 witness: the static-only dependency staged against an empty
destination copies nothing. -/
theorem static_only_dep_stages_nothing_witness :
    depWrites staticOnlyDep = [] ∧ stageAll [staticOnlyDep] [] = [] :=
  static_only_dep_stages_nothing staticOnlyDep [] (by decide)

/-- C10: the loop body is guarded by `if dep.cpp_info.bindirs:`, so bindirs[0]
is never read for a dependency whose binary-directory list is empty — such a
dependency is skipped whole, staging stays a total function of the resolved
set, and the destination is unchanged by it. -/
theorem empty_bindirs_dep_skipped (dep : Dep) (d0 : DestDir) (h : dep.bindirs = []) :
    depWrites dep = [] ∧ stageAll [dep] d0 = d0 := by
  have hw : depWrites dep = [] := by simp [depWrites, h]
  exact ⟨hw, by simp [stageAll, stageWrites, hw, applyWrites]⟩

/-- A header-only dependency exposing no binary directory at all. -/
def headerOnlyDep : Dep :=
  ⟨"tinygltf", false, []⟩

/-- C10 witness: the header-only dependency is skipped and stages nothing. -/
theorem empty_bindirs_dep_skipped_witness :
    depWrites headerOnlyDep = [] ∧ stageAll [headerOnlyDep] [] = [] :=
  empty_bindirs_dep_skipped headerOnlyDep [] rfl

end VulkanRender
